import Mathlib

/-!
# Verification of the poetry fill-in-the-blank game core (src/lib/game.js)

A shallow embedding of the puzzle state machine of `PoetryGame`:
corpus loading (`loadPoems`), line selection (`selectRandomLines`),
round generation (`removeRandomChars`), drag/touch fills
(`setupDropZone` / `setupTouchDrag` drop handlers), single-step undo
(`undoLastDrag`), completion checking (`checkCompletion`), snapshots
(`saveStateR` / `restoreStateR`) and the deferred restore timer.

DOM state is modelled explicitly: each blanked card is identified by its
position in the `removedChars` list; its `data-filled`/`data-filled-char`
attributes become an `Option Char` entry of a parallel list `filled`;
each drag character's `hidden` class becomes a `Bool` entry of a parallel
list `hidden`.  `Math.floor(Math.random() * n)` is modelled by an oracle
value reduced mod `n`, which ranges over exactly the same set `[0, n)`.
The scheduled `setTimeout(restoreStateR, 1500)` is modelled as a Boolean
`pendingRestore` flag plus an explicit timer-firing transition
(`fireRestore`); the source never stores the timer id and never calls
`clearTimeout`, which the model mirrors by having no transition that
clears the flag other than the firing itself.
-/

namespace PoetGame

/-- A character position in the 2×L grid: `{ line, index }` objects pushed
by `removeRandomChars`. -/
structure Pos where
  line : Nat
  index : Nat
deriving DecidableEq, Repr

/-- An entry of `this.removedChars`: the original character, its position
and the full line text kept for pronunciation context. -/
structure RemovedChar where
  char : Char
  line : Nat
  index : Nat
  lineText : String
deriving DecidableEq, Repr

/-- `this.lastDragAction = { card, dragChar, char }`: the blanked card is
identified by its index in `removedChars` order, the drag character (if the
`querySelector` found one) by its index in the shuffled candidate list. -/
structure LastAction where
  cardPos : Nat
  dragChar : Option Nat
  char : Char
deriving DecidableEq, Repr

/-- The visible message area (`showSuccess` / `showError` / `clearMessage`). -/
inductive Msg where
  | noMsg
  | success
  | error
deriving DecidableEq, Repr

/-- The rendered play area: the two poem lines, the blanked cards with
their original characters (in removal order), the per-card fill state, the
shuffled candidate list and the per-candidate `hidden` flag.  This is what
`saveStateR` snapshots (as innerHTML) and `restoreStateR` writes back. -/
structure Display where
  lines : List String
  blanks : List RemovedChar
  filled : List (Option Char)
  shuffled : List RemovedChar
  hidden : List Bool
deriving DecidableEq, Repr

/-- The whole game state of a `PoetryGame` instance. -/
structure GameState where
  sections : List (List String)
  display : Display
  stateR : Option Display
  lastDragAction : Option LastAction
  message : Msg
  pendingRestore : Bool
  removeCount : Nat
  lineLength : Nat
deriving DecidableEq, Repr

/-! ## Fisher–Yates shuffle (the two inline shuffles in `removeRandomChars`) -/

/-- `[a[i], a[j]] = [a[j], a[i]]`: swap two positions of a list.  Out of
range indices leave the list unchanged (never happens in the source, where
both indices are in range). -/
def swapIdx (l : List α) (i j : Nat) : List α :=
  match l.get? i, l.get? j with
  | some a, some b => (l.set i b).set j a
  | _, _ => l

/-- The downward loop `for (let i = len-1; i > 0; i--)`: argument `i` is
the current loop counter, `rand i` models the `Math.random()` draw at
counter `i` (reduced mod `i+1`, the exact range of
`Math.floor(Math.random() * (i + 1))`). -/
def fyAux (rand : Nat → Nat) : List α → Nat → List α
  | l, 0 => l
  | l, i + 1 => fyAux rand (swapIdx l (i + 1) (rand (i + 1) % (i + 2))) i

/-- Fisher–Yates shuffle of a list, randomness supplied by the oracle. -/
def fisherYates (l : List α) (rand : Nat → Nat) : List α :=
  fyAux rand l (l.length - 1)

theorem get_cons_set_perm (t : List α) (m : Nat) (a : α) (h : m < t.length) :
    List.Perm (t.get ⟨m, h⟩ :: t.set m a) (a :: t) := by
  induction t generalizing m with
  | nil => simp at h
  | cons b u ih =>
    cases m with
    | zero => simpa using List.Perm.swap a b u
    | succ m =>
      simp only [List.length_cons, Nat.succ_lt_succ_iff] at h
      simp only [List.get, List.set]
      exact ((List.Perm.swap _ _ _).trans (List.Perm.cons b (ih m h))).trans
        (List.Perm.swap _ _ _)

theorem set_set_perm (l : List α) (i j : Nat) (hi : i < l.length) (hj : j < l.length) :
    List.Perm ((l.set i (l.get ⟨j, hj⟩)).set j (l.get ⟨i, hi⟩)) l := by
  induction l generalizing i j with
  | nil => simp at hi
  | cons c t ih =>
    cases i with
    | zero =>
      cases j with
      | zero => simp
      | succ m =>
        simp only [List.length_cons, Nat.succ_lt_succ_iff] at hj
        simpa using get_cons_set_perm t m c hj
    | succ n =>
      cases j with
      | zero =>
        simp only [List.length_cons, Nat.succ_lt_succ_iff] at hi
        simpa using get_cons_set_perm t n c hi
      | succ m =>
        simp only [List.length_cons, Nat.succ_lt_succ_iff] at hi hj
        simpa using List.Perm.cons c (ih n m hi hj)

theorem swapIdx_perm (l : List α) (i j : Nat) : List.Perm (swapIdx l i j) l := by
  unfold swapIdx
  cases hi : l.get? i with
  | none => exact List.Perm.refl l
  | some a =>
    cases hj : l.get? j with
    | none => exact List.Perm.refl l
    | some b =>
      have hi' : i < l.length := List.get?_eq_some.mp hi |>.1
      have hj' : j < l.length := List.get?_eq_some.mp hj |>.1
      have ha : l.get ⟨i, hi'⟩ = a := (List.get?_eq_some.mp hi).2
      have hb : l.get ⟨j, hj'⟩ = b := (List.get?_eq_some.mp hj).2
      have hp := set_set_perm l i j hi' hj'
      rw [ha, hb] at hp
      exact hp

theorem fyAux_perm (rand : Nat → Nat) (l : List α) (i : Nat) :
    List.Perm (fyAux rand l i) l := by
  induction i generalizing l with
  | zero => exact List.Perm.refl l
  | succ i ih =>
    exact List.Perm.trans (ih _) (swapIdx_perm l (i + 1) (rand (i + 1) % (i + 2)))

theorem fisherYates_perm (l : List α) (rand : Nat → Nat) :
    List.Perm (fisherYates l rand) l :=
  fyAux_perm rand l (l.length - 1)

/-! ## Corpus loading (`loadPoems`) and line selection (`selectRandomLines`) -/

/-- The hard-coded fallback sections of the `catch` branch of `loadPoems`. -/
def defaultSections : List (List String) :=
  [["太阳哈哈笑", "背上小书包", "路上遇花猫", "蝴蝶飞呀飞"]]

/-- The hard-coded fallback line pair of `selectRandomLines`. -/
def defaultPair : List String := ["太阳哈哈笑", "背上小书包"]

/-- The `try` branch of `loadPoems`: split the fetched text on `===` into
sections, split each section into lines, keep lines whose trimmed length is
exactly `lineLength`, keep sections with at least 2 surviving lines. -/
def parsePoems (text : String) (L : Nat) : List (List String) :=
  let rawSections := text.trim.splitOn "==="
  (rawSections.map (fun s =>
      (s.trim.splitOn "\n").filter (fun line => line.trim.length = L))).filter
    (fun s => 2 ≤ s.length)

/-- `loadPoems`: the fetch either fails (`Except.error`, the `catch` branch,
falling back to `defaultSections`) or yields the text of `poet.txt`. -/
def loadPoems (fetchResult : Except Unit String) (L : Nat) : List (List String) :=
  match fetchResult with
  | Except.ok text => parsePoems text L
  | Except.error _ => defaultSections

/-- `selectRandomLines`: on an empty corpus fall back to the hard-coded
pair, otherwise pick a random section and a random pair of consecutive
lines inside it.  `r1`, `r2` are the two `Math.random()` draws, reduced
mod the respective bound exactly as `Math.floor(Math.random() * n)` is. -/
def selectRandomLines (sections : List (List String)) (r1 r2 : Nat) : List String :=
  if sections.length = 0 then
    defaultPair
  else
    let sectionIndex := r1 % sections.length
    let s := sections.getD sectionIndex []
    let maxIndex := s.length - 2
    let startIndex := r2 % (maxIndex + 1)
    [s.getD startIndex "", s.getD (startIndex + 1) ""]

/-! ## Round generation (`removeRandomChars`) -/

/-- The `allPositions` list built by the two nested loops of
`removeRandomChars`: lines 0 and 1, indices `0 .. lineLength-1`. -/
def allPositions (L : Nat) : List Pos :=
  (List.range 2).flatMap (fun line => (List.range L).map (fun index => ⟨line, index⟩))

/-- `card.dataset.char` of the card at position `p`: the original character
`currentLines[p.line][p.index]` set by `createCharCard`. -/
def charAt (lines : List String) (p : Pos) : Char :=
  (lines.getD p.line "").toList.getD p.index ' '

/-- The `removedChars` list computed by `removeRandomChars`: shuffle the
full position list, take the first `removeCount` positions, and record for
each its original character and line text. -/
def removeRandomChars (lines : List String) (L removeCount : Nat) (rand : Nat → Nat) :
    List RemovedChar :=
  let positionsToRemove := (fisherYates (allPositions L) rand).take removeCount
  positionsToRemove.map (fun p =>
    { char := charAt lines p, line := p.line, index := p.index,
      lineText := lines.getD p.line "" })

/-! ## The game state transitions -/

/-- The verdict of `checkCompletion` (the source encodes Incomplete as the
early `return`, success as `showSuccess`, failure as `showError` plus the
scheduled restore). -/
inductive Verdict where
  | incomplete
  | correct
  | incorrect
deriving DecidableEq, Repr

/-- The pure verdict computed by `checkCompletion`: `emptyCards` are the
blanked cards still showing class `empty`, `filledCards` those with
`data-filled="true"`; a card is wrong when `dataset.char ≠ dataset.filledChar`. -/
def checkCompletion (g : GameState) : Verdict :=
  let emptyCards := g.display.filled.filter (fun o => o.isNone)
  let filledCards := (g.display.blanks.zip g.display.filled).filter (fun p => p.2.isSome)
  if emptyCards.length > 0 ∨ filledCards.length < g.removeCount then
    Verdict.incomplete
  else if filledCards.all (fun p => p.2 = some p.1.char) then
    Verdict.correct
  else
    Verdict.incorrect

/-- The side effects of `checkCompletion`: show the success or error
message; on error, schedule the deferred `restoreStateR` (the timer id is
discarded by the source, so only the existence of a pending timer is
state). -/
def applyCompletion (g : GameState) : GameState :=
  match checkCompletion g with
  | Verdict.incomplete => g
  | Verdict.correct => { g with message := Msg.success }
  | Verdict.incorrect => { g with message := Msg.error, pendingRestore := true }

/-- The result of a drop gesture: the early `return` on an already-filled
card, or a performed fill. -/
inductive FillResult where
  | blocked
  | ok
deriving DecidableEq, Repr

/-- The `drop` handler installed by `setupDropZone` on blanked card `b`:
blocked when `card.dataset.filled === 'true'`; otherwise record
`lastDragAction`, write the dropped character, hide the drag character the
`dragIndex` payload points at (none is hidden when the selector finds no
such element), and run `checkCompletion`. -/
def dropFill (g : GameState) (b : Nat) (c : Char) (dragIndex : Nat) :
    FillResult × GameState :=
  match g.display.filled.get? b with
  | none => (FillResult.blocked, g)
  | some (some _) => (FillResult.blocked, g)
  | some none =>
    let dragChar : Option Nat :=
      if dragIndex < g.display.shuffled.length then some dragIndex else none
    let d := { g.display with
      filled := g.display.filled.set b (some c),
      hidden := (match dragChar with
                 | some k => g.display.hidden.set k true
                 | none => g.display.hidden) }
    let g1 := { g with
      display := d,
      lastDragAction := some ⟨b, dragChar, c⟩ }
    (FillResult.ok, applyCompletion g1)

/-- The `touchend` handler of `setupTouchDrag` for drag character `k`
released over blanked card `b`: fills only when the card is still empty;
the dropped character is the drag character's own `dataset.char`. -/
def touchFill (g : GameState) (b k : Nat) : GameState :=
  match g.display.shuffled.get? k with
  | none => g
  | some rc =>
    match g.display.filled.get? b with
    | none => g
    | some (some _) => g
    | some none =>
      let d := { g.display with
        filled := g.display.filled.set b (some rc.char),
        hidden := g.display.hidden.set k true }
      let g1 := { g with
        display := d,
        lastDragAction := some ⟨b, some k, rc.char⟩ }
      applyCompletion g1

/-- `undoLastDrag`: nothing to do when `lastDragAction` is unset (the JS
early `return`, i.e. a falsy result); otherwise restore the card to its
empty state, un-hide the recorded drag character when one was recorded,
and clear `lastDragAction`. -/
def undoLastDrag (g : GameState) : Bool × GameState :=
  match g.lastDragAction with
  | none => (false, g)
  | some a =>
    let d := { g.display with
      filled := g.display.filled.set a.cardPos none,
      hidden := (match a.dragChar with
                 | some k => g.display.hidden.set k false
                 | none => g.display.hidden) }
    (true, { g with display := d, lastDragAction := none })

/-- `restoreStateR`: write the snapshot back over the play area; the
`rebindEvents` it calls clears `lastDragAction`, and `clearMessage` clears
the message.  Nothing restored when no snapshot was ever saved. -/
def restoreStateR (g : GameState) : GameState :=
  match g.stateR with
  | none => g
  | some d =>
    { g with display := d, lastDragAction := none, message := Msg.noMsg }

/-- The scheduled `setTimeout(() => this.restoreStateR(), 1500)` firing:
the pending timer is consumed and `restoreStateR` runs against the
*current* state of the instance. -/
def fireRestore (g : GameState) : GameState :=
  restoreStateR { g with pendingRestore := false }

/-- `startGame`: clear the undo record, select a fresh line pair, re-render
(all cards full), blank out random positions, shuffle the candidates, save
the snapshot (`saveStateR`) and clear the message.  The source never stores
or clears the restore timer, so a pending restore survives unchanged. -/
def startGame (g : GameState) (r1 r2 : Nat) (rand rand2 : Nat → Nat) : GameState :=
  let lines := selectRandomLines g.sections r1 r2
  let blanks := removeRandomChars lines g.lineLength g.removeCount rand
  let shuffled := fisherYates blanks rand2
  let d : Display := {
    lines := lines,
    blanks := blanks,
    filled := List.replicate blanks.length none,
    shuffled := shuffled,
    hidden := List.replicate shuffled.length false }
  { g with
    display := d, stateR := some d, lastDragAction := none,
    message := Msg.noMsg }

/-- A player gesture between round start and the restore: a pointer drop,
a touch drop, or an undo click. -/
inductive Op where
  | drop (b : Nat) (c : Char) (dragIndex : Nat)
  | touch (b k : Nat)
  | undo
deriving DecidableEq, Repr

def applyOp (g : GameState) : Op → GameState
  | Op.drop b c dragIndex => (dropFill g b c dragIndex).2
  | Op.touch b k => touchFill g b k
  | Op.undo => (undoLastDrag g).2

def applyOps (g : GameState) : List Op → GameState
  | [] => g
  | op :: ops => applyOps (applyOp g op) ops

/-- A freshly constructed `PoetryGame` instance whose corpus is the
default fallback, before `startGame` has run (empty play area). -/
def initialState : GameState := {
  sections := defaultSections,
  display := { lines := [], blanks := [], filled := [], shuffled := [], hidden := [] },
  stateR := none,
  lastDragAction := none,
  message := Msg.noMsg,
  pendingRestore := false,
  removeCount := 4,
  lineLength := 5 }

/-- A concrete generated round used to instantiate the theorems below:
with the identity oracle the shuffles are identity permutations, so the
blanks are positions (0,0)..(0,3) of "太阳哈哈笑", i.e. 太 阳 哈 哈, and
the candidates are offered in the same order. -/
def demoStart : GameState := startGame initialState 0 0 id id

def demoFill1 : GameState := (dropFill demoStart 0 '太' 0).2

def demoFill2 : GameState := (dropFill demoFill1 1 '阳' 1).2

def demoFill3 : GameState := (dropFill demoFill2 2 '哈' 2).2

/-- All four blanks filled with their original characters. -/
def demoCorrect : GameState := (dropFill demoFill3 3 '哈' 3).2

/-- The last blank filled with a wrong character ('笑' instead of '哈'):
the incorrect verdict schedules the restore. -/
def demoWrong : GameState := (dropFill demoFill3 3 '笑' 3).2

/-- A new round started while `demoWrong`'s restore is still pending. -/
def demoNewRound : GameState := startGame demoWrong 0 1 (fun i => i + 1) id

/-- A fill made into the new round during the pending-restore window. -/
def demoNewFill : GameState := (dropFill demoNewRound 0 '上' 0).2

/-! ## Lemmas about the position grid and round generation -/

theorem allPositions_eq (L : Nat) :
    allPositions L =
      (List.range L).map (fun i => Pos.mk 0 i) ++ (List.range L).map (fun i => Pos.mk 1 i) := by
  simp [allPositions, List.range_succ]

theorem allPositions_length (L : Nat) : (allPositions L).length = 2 * L := by
  rw [allPositions_eq]
  simp
  omega

theorem allPositions_nodup (L : Nat) : (allPositions L).Nodup := by
  rw [allPositions_eq]
  refine List.Nodup.append ?_ ?_ ?_
  · exact (List.nodup_range L).map fun a b h => by
      cases Pos.mk.injEq 0 a 0 b ▸ h; omega
  · exact (List.nodup_range L).map fun a b h => by
      cases Pos.mk.injEq 1 a 1 b ▸ h; omega
  · intro p hp hq
    simp only [List.mem_map, List.mem_range] at hp hq
    obtain ⟨a, _, ha⟩ := hp
    obtain ⟨b, _, hb⟩ := hq
    rw [← ha] at hb
    exact absurd (congrArg Pos.line hb) (by simp)

theorem mem_allPositions (L : Nat) (p : Pos) :
    p ∈ allPositions L ↔ p.line < 2 ∧ p.index < L := by
  simp only [allPositions, List.mem_flatMap, List.mem_range, List.mem_map]
  constructor
  · rintro ⟨line, hline, index, hindex, rfl⟩
    exact ⟨hline, hindex⟩
  · rintro ⟨h1, h2⟩
    exact ⟨p.line, h1, p.index, h2, rfl⟩

theorem removeRandomChars_map_pos (lines : List String) (L rc : Nat) (rand : Nat → Nat) :
    (removeRandomChars lines L rc rand).map (fun r => Pos.mk r.line r.index) =
      (fisherYates (allPositions L) rand).take rc := by
  unfold removeRandomChars
  rw [List.map_map]
  exact List.map_id'' (fun p => rfl) _

theorem removeRandomChars_length (lines : List String) (L rc : Nat) (rand : Nat → Nat) :
    (removeRandomChars lines L rc rand).length = min rc (2 * L) := by
  unfold removeRandomChars
  rw [List.length_map, List.length_take, (fisherYates_perm _ _).length_eq,
    allPositions_length]

/-- C1 (counterexample): with `removeCount = 11` and `lineLength = 5`
(`11 > 2×5`), round generation does not fail fast: `startGame` produces a
round, and the number of blanked positions was silently clamped to the 10
available positions instead of being 11. -/
theorem generation_clamps_instead_of_failing_cex :
    (startGame { initialState with removeCount := 11 } 0 0 id id).display.blanks.length = 10 ∧
    (startGame { initialState with removeCount := 11 } 0 0 id id).removeCount = 11 := by
  constructor <;> rfl

/-- C1 (amended): when `removeCount` exceeds the number of available
positions `2×L`, `removeRandomChars` does not fail at generation time; it
silently clamps, blanking exactly the `2×L` available positions. -/
theorem removeRandomChars_clamps_to_grid (lines : List String) (L rc : Nat)
    (rand : Nat → Nat) (h : 2 * L ≤ rc) :
    (removeRandomChars lines L rc rand).length = 2 * L := by
  rw [removeRandomChars_length]
  omega

theorem removeRandomChars_clamps_to_grid_witness :
    2 * 5 ≤ 11 ∧ (removeRandomChars defaultPair 5 11 id).length = 2 * 5 :=
  ⟨by decide, removeRandomChars_clamps_to_grid defaultPair 5 11 id (by decide)⟩

/-- C8 (counterexample): a Round produced by round generation with
`removeCount = 11` and `lineLength = 5` has only 10 blank positions, not
`removeCount` of them. -/
theorem blank_count_not_removeCount_cex :
    (startGame { initialState with removeCount := 11 } 0 0 id id).display.blanks.length ≠
      (startGame { initialState with removeCount := 11 } 0 0 id id).removeCount := by
  decide

/-- C8 (amended): for every Round produced by round generation with
`removeCount ≤ 2×L`, the blank positions number exactly `removeCount`,
are pairwise distinct, and all lie within the 2×L grid. -/
theorem blank_positions_count_distinct_in_grid (lines : List String) (L rc : Nat)
    (rand : Nat → Nat) (h : rc ≤ 2 * L) :
    ((removeRandomChars lines L rc rand).map (fun r => Pos.mk r.line r.index)).length = rc ∧
    ((removeRandomChars lines L rc rand).map (fun r => Pos.mk r.line r.index)).Nodup ∧
    ∀ p ∈ (removeRandomChars lines L rc rand).map (fun r => Pos.mk r.line r.index),
      p.line < 2 ∧ p.index < L := by
  rw [removeRandomChars_map_pos]
  refine ⟨?_, ?_, ?_⟩
  · rw [List.length_take, (fisherYates_perm _ _).length_eq, allPositions_length]
    omega
  · exact List.Nodup.sublist (List.take_sublist _ _)
      ((fisherYates_perm _ _).nodup_iff.mpr (allPositions_nodup L))
  · intro p hp
    exact (mem_allPositions L p).mp
      ((fisherYates_perm _ _).mem_iff.mp (List.mem_of_mem_take hp))

/-! ## Lemmas about fills, undo and completion -/

theorem applyCompletion_display (g : GameState) :
    (applyCompletion g).display = g.display := by
  unfold applyCompletion
  cases checkCompletion g <;> rfl

theorem applyCompletion_lastDragAction (g : GameState) :
    (applyCompletion g).lastDragAction = g.lastDragAction := by
  unfold applyCompletion
  cases checkCompletion g <;> rfl

theorem applyCompletion_stateR (g : GameState) :
    (applyCompletion g).stateR = g.stateR := by
  unfold applyCompletion
  cases checkCompletion g <;> rfl

/-- The parts of the state no player gesture touches: the line pair, the
blank layout, the candidate list, the snapshot and the configuration. -/
theorem applyOp_static (g : GameState) (op : Op) :
    (applyOp g op).display.lines = g.display.lines ∧
    (applyOp g op).display.blanks = g.display.blanks ∧
    (applyOp g op).display.shuffled = g.display.shuffled ∧
    (applyOp g op).stateR = g.stateR := by
  cases op with
  | drop b c dragIndex =>
    simp only [applyOp, dropFill]
    cases ho : g.display.filled.get? b with
    | none => exact ⟨rfl, rfl, rfl, rfl⟩
    | some o =>
      cases o with
      | some c0 => exact ⟨rfl, rfl, rfl, rfl⟩
      | none =>
        refine ⟨?_, ?_, ?_, ?_⟩ <;>
          simp [applyCompletion_display, applyCompletion_stateR]
  | touch b k =>
    simp only [applyOp, touchFill]
    cases hk : g.display.shuffled.get? k with
    | none => exact ⟨rfl, rfl, rfl, rfl⟩
    | some rc =>
      cases ho : g.display.filled.get? b with
      | none => exact ⟨rfl, rfl, rfl, rfl⟩
      | some o =>
        cases o with
        | some c0 => exact ⟨rfl, rfl, rfl, rfl⟩
        | none =>
          refine ⟨?_, ?_, ?_, ?_⟩ <;>
            simp [applyCompletion_display, applyCompletion_stateR]
  | undo =>
    simp only [applyOp, undoLastDrag]
    cases h : g.lastDragAction with
    | none => exact ⟨rfl, rfl, rfl, rfl⟩
    | some a => exact ⟨rfl, rfl, rfl, rfl⟩

theorem applyOps_static (g : GameState) (ops : List Op) :
    (applyOps g ops).display.lines = g.display.lines ∧
    (applyOps g ops).display.blanks = g.display.blanks ∧
    (applyOps g ops).display.shuffled = g.display.shuffled ∧
    (applyOps g ops).stateR = g.stateR := by
  induction ops generalizing g with
  | nil => exact ⟨rfl, rfl, rfl, rfl⟩
  | cons op ops ih =>
    obtain ⟨l1, b1, s1, r1⟩ := applyOp_static g op
    obtain ⟨l2, b2, s2, r2⟩ := ih (applyOp g op)
    exact ⟨l2.trans l1, b2.trans b1, s2.trans s1, r2.trans r1⟩

/-- A Correct verdict forces every blank to be filled. -/
theorem checkCompletion_correct_no_empty (g : GameState)
    (hc : checkCompletion g = Verdict.correct) : none ∉ g.display.filled := by
  intro hmem
  have hlen : 0 < (g.display.filled.filter (fun o => o.isNone)).length := by
    rw [← List.countP_eq_length_filter]
    exact List.countP_pos_iff.mpr ⟨none, hmem, by simp⟩
  have hinc : checkCompletion g = Verdict.incomplete := by
    simp only [checkCompletion]
    rw [if_pos (Or.inl hlen)]
  rw [hinc] at hc
  exact Verdict.noConfusion hc

theorem countP_isSome_set (l : List (Option Char)) (b : Nat) (c : Char)
    (h : l.get? b = some none) :
    (l.set b (some c)).countP (fun o => o.isSome) =
      l.countP (fun o => o.isSome) + 1 := by
  induction l generalizing b with
  | nil => simp at h
  | cons a t ih =>
    cases b with
    | zero =>
      simp only [List.get?] at h
      cases h
      simp [List.set, List.countP_cons]
    | succ b =>
      simp only [List.get?] at h
      simp [List.set, List.countP_cons, ih b h]
      omega

theorem blank_positions_count_distinct_in_grid_witness :
    4 ≤ 2 * 5 ∧
    (((removeRandomChars defaultPair 5 4 id).map (fun r => Pos.mk r.line r.index)).length = 4 ∧
     ((removeRandomChars defaultPair 5 4 id).map (fun r => Pos.mk r.line r.index)).Nodup ∧
     ∀ p ∈ (removeRandomChars defaultPair 5 4 id).map (fun r => Pos.mk r.line r.index),
       p.line < 2 ∧ p.index < 5) :=
  ⟨by decide, blank_positions_count_distinct_in_grid defaultPair 5 4 id (by decide)⟩

/-- C4: for every well-formed Round state (one fill slot per blank, and
`removeCount` many blanks, the generation invariant), `checkCompletion`
returns Incomplete iff some blank is still empty; when no blank is empty it
returns Correct iff every filled assignment's character equals that
position's original character, and Incorrect otherwise. -/
theorem checkCompletion_verdict_spec (g : GameState)
    (h1 : g.display.filled.length = g.display.blanks.length)
    (h2 : g.display.blanks.length = g.removeCount) :
    (checkCompletion g = Verdict.incomplete ↔ none ∈ g.display.filled) ∧
    (none ∉ g.display.filled →
      ((checkCompletion g = Verdict.correct ↔
          ∀ p ∈ g.display.blanks.zip g.display.filled, p.2 = some p.1.char) ∧
       (checkCompletion g = Verdict.incorrect ↔
          ¬ ∀ p ∈ g.display.blanks.zip g.display.filled, p.2 = some p.1.char))) := by
  by_cases hmem : none ∈ g.display.filled
  · have hlen : 0 < (g.display.filled.filter (fun o => o.isNone)).length := by
      rw [← List.countP_eq_length_filter]
      exact List.countP_pos_iff.mpr ⟨none, hmem, by simp⟩
    have hinc : checkCompletion g = Verdict.incomplete := by
      simp only [checkCompletion]
      rw [if_pos (Or.inl hlen)]
    refine ⟨by simp [hinc, hmem], fun h => absurd hmem h⟩
  · have hfil : g.display.filled.filter (fun o => o.isNone) = [] := by
      rw [List.filter_eq_nil_iff]
      intro o ho
      cases o with
      | none => exact absurd ho hmem
      | some c => simp
    have hfc : (g.display.blanks.zip g.display.filled).filter (fun p => p.2.isSome) =
        g.display.blanks.zip g.display.filled := by
      rw [List.filter_eq_self]
      intro p hp
      cases hh : p.2 with
      | none => exact absurd (hh ▸ (List.of_mem_zip hp).2) hmem
      | some c => simp
    have hzlen : (g.display.blanks.zip g.display.filled).length = g.removeCount := by
      rw [List.length_zip, h1, h2, Nat.min_self]
    have hcond : ¬ ((g.display.filled.filter (fun o => o.isNone)).length > 0 ∨
        ((g.display.blanks.zip g.display.filled).filter
          (fun p => p.2.isSome)).length < g.removeCount) := by
      rw [hfil, hfc, hzlen]
      simp
    by_cases hall : ∀ p ∈ g.display.blanks.zip g.display.filled, p.2 = some p.1.char
    · have hc : checkCompletion g = Verdict.correct := by
        simp only [checkCompletion]
        rw [if_neg hcond, if_pos]
        rw [hfc, List.all_eq_true]
        intro p hp
        exact decide_eq_true (hall p hp)
      refine ⟨by simp [hc, hmem], fun _ => ⟨?_, ?_⟩⟩
      · rw [hc]
        exact iff_of_true rfl hall
      · rw [hc]
        exact iff_of_false (by decide) (not_not_intro hall)
    · have hc : checkCompletion g = Verdict.incorrect := by
        simp only [checkCompletion]
        rw [if_neg hcond, if_neg]
        rw [hfc, List.all_eq_true]
        intro hcontra
        exact hall (fun p hp => of_decide_eq_true (hcontra p hp))
      refine ⟨by simp [hc, hmem], fun _ => ⟨?_, ?_⟩⟩
      · rw [hc]
        exact iff_of_false (by decide) hall
      · rw [hc]
        exact iff_of_true rfl hall

theorem checkCompletion_verdict_spec_witness :
    (demoFill1.display.filled.length = demoFill1.display.blanks.length ∧
     demoFill1.display.blanks.length = demoFill1.removeCount) ∧
    (checkCompletion demoFill1 = Verdict.incomplete ↔ none ∈ demoFill1.display.filled) :=
  ⟨⟨by decide, by decide⟩,
   (checkCompletion_verdict_spec demoFill1 (by decide) (by decide)).1⟩

/-- C6: a fill whose target blank is already filled is a blocked no-op on
both input paths: the pointer-drop handler returns the blocked result with
the state unchanged (assignment kept, no candidate consumed, `lastAction`
kept), and the touch-drop handler leaves the state unchanged. -/
theorem fill_on_filled_blank_blocked (g : GameState) (b : Nat) (c0 : Char)
    (h : g.display.filled.get? b = some (some c0)) (c : Char) (k : Nat) :
    dropFill g b c k = (FillResult.blocked, g) ∧ touchFill g b k = g := by
  constructor
  · simp only [dropFill, h]
  · simp only [touchFill, h]
    cases g.display.shuffled.get? k <;> rfl

theorem fill_on_filled_blank_blocked_witness :
    demoFill1.display.filled.get? 0 = some (some '太') ∧
    (dropFill demoFill1 0 '阳' 1 = (FillResult.blocked, demoFill1) ∧
     touchFill demoFill1 0 1 = demoFill1) :=
  ⟨by decide, fill_on_filled_blank_blocked demoFill1 0 '太' (by decide) '阳' 1⟩

/-- C7: `undoLastDrag` is a `false` no-op when `lastDragAction` is unset;
otherwise it empties the most recently filled blank, makes its candidate
available again and clears `lastDragAction`; and calling it twice in a row
always has the same effect on the state as calling it once. -/
theorem undoLastDrag_spec (g : GameState) :
    (g.lastDragAction = none → undoLastDrag g = (false, g)) ∧
    (∀ b k c, g.lastDragAction = some ⟨b, some k, c⟩ →
      undoLastDrag g =
        (true, { g with
          display := { g.display with
            filled := g.display.filled.set b none,
            hidden := g.display.hidden.set k false },
          lastDragAction := none })) ∧
    (undoLastDrag (undoLastDrag g).2).2 = (undoLastDrag g).2 := by
  refine ⟨fun h => by simp [undoLastDrag, h], fun b k c h => by simp [undoLastDrag, h], ?_⟩
  cases h : g.lastDragAction with
  | none => simp [undoLastDrag, h]
  | some a => simp [undoLastDrag, h]

theorem undoLastDrag_spec_witness :
    demoFill1.lastDragAction = some ⟨0, some 0, '太'⟩ ∧
    undoLastDrag demoFill1 =
      (true, { demoFill1 with
        display := { demoFill1.display with
          filled := demoFill1.display.filled.set 0 none,
          hidden := demoFill1.display.hidden.set 0 false },
        lastDragAction := none }) ∧
    (undoLastDrag (undoLastDrag demoFill1).2).2 = (undoLastDrag demoFill1).2 :=
  ⟨by decide, (undoLastDrag_spec demoFill1).2.1 0 0 '太' (by decide),
   (undoLastDrag_spec demoFill1).2.2⟩

/-- C10: a pointer drop on an empty blank whose `dragIndex` payload matches
no drag character still succeeds: the dropped character is recorded and the
blank counts as filled, yet no candidate is hidden, `lastDragAction`
records no drag character, and a later undo of that fill empties the blank
again without un-hiding any candidate — so the number of filled blanks can
exceed the number of consumed candidates. -/
theorem dangling_candidate_fill (g : GameState) (b : Nat) (c : Char) (k : Nat)
    (h1 : g.display.filled.get? b = some none)
    (h2 : g.display.shuffled.length ≤ k) :
    (dropFill g b c k).1 = FillResult.ok ∧
    (dropFill g b c k).2.display.filled = g.display.filled.set b (some c) ∧
    (dropFill g b c k).2.display.filled.countP (fun o => o.isSome) =
      g.display.filled.countP (fun o => o.isSome) + 1 ∧
    (dropFill g b c k).2.display.hidden = g.display.hidden ∧
    (dropFill g b c k).2.lastDragAction = some ⟨b, none, c⟩ ∧
    (undoLastDrag (dropFill g b c k).2).2.display.filled =
      (g.display.filled.set b (some c)).set b none ∧
    (undoLastDrag (dropFill g b c k).2).2.display.hidden = g.display.hidden := by
  have hk : ¬ k < g.display.shuffled.length := by omega
  have hfill : dropFill g b c k =
      (FillResult.ok, applyCompletion { g with
        display := { g.display with filled := g.display.filled.set b (some c) },
        lastDragAction := some ⟨b, none, c⟩ }) := by
    simp only [dropFill, h1, hk, if_false]
  rw [hfill]
  refine ⟨rfl, ?_, ?_, ?_, ?_, ?_, ?_⟩
  · rw [applyCompletion_display]
  · rw [applyCompletion_display]
    exact countP_isSome_set _ b c h1
  · rw [applyCompletion_display]
  · rw [applyCompletion_lastDragAction]
  · rw [undoLastDrag, applyCompletion_lastDragAction]
    simp [applyCompletion_display]
  · rw [undoLastDrag, applyCompletion_lastDragAction]
    simp [applyCompletion_display]

theorem dangling_candidate_fill_witness :
    (demoStart.display.filled.get? 0 = some none ∧
     demoStart.display.shuffled.length ≤ 99) ∧
    ((dropFill demoStart 0 '猫' 99).1 = FillResult.ok ∧
     (dropFill demoStart 0 '猫' 99).2.display.filled =
       demoStart.display.filled.set 0 (some '猫') ∧
     (dropFill demoStart 0 '猫' 99).2.display.filled.countP (fun o => o.isSome) =
       demoStart.display.filled.countP (fun o => o.isSome) + 1 ∧
     (dropFill demoStart 0 '猫' 99).2.display.hidden = demoStart.display.hidden ∧
     (dropFill demoStart 0 '猫' 99).2.lastDragAction = some ⟨0, none, '猫'⟩ ∧
     (undoLastDrag (dropFill demoStart 0 '猫' 99).2).2.display.filled =
       (demoStart.display.filled.set 0 (some '猫')).set 0 none ∧
     (undoLastDrag (dropFill demoStart 0 '猫' 99).2).2.display.hidden =
       demoStart.display.hidden) :=
  ⟨⟨by decide, by decide⟩,
   dangling_candidate_fill demoStart 0 '猫' 99 (by decide) (by decide)⟩

/-- C2 (counterexample): a concrete Round evaluated Correct is not
terminal: `lastDragAction` is still set, so the undo button still works and
mutates the Round's state. -/
theorem correct_not_terminal_for_undo_cex :
    checkCompletion demoCorrect = Verdict.correct ∧
    (undoLastDrag demoCorrect).2 ≠ demoCorrect :=
  ⟨by decide, by decide⟩

/-- C2 (amended): after the evaluator reports Correct every subsequent fill
is indeed a blocked no-op (every blank is already filled), but undo is not
blocked: with `lastDragAction` still set (as it is right after the final
fill), `undoLastDrag` is accepted and reopens the most recently filled
blank.  Terminality holds only for fills, not for undo. -/
theorem correct_blocks_fills_but_not_undo (g : GameState)
    (hc : checkCompletion g = Verdict.correct) :
    (∀ b c k, dropFill g b c k = (FillResult.blocked, g)) ∧
    (∀ b k, touchFill g b k = g) ∧
    (∀ a, g.lastDragAction = some a →
      (undoLastDrag g).1 = true ∧
      (undoLastDrag g).2.display.filled = g.display.filled.set a.cardPos none) := by
  have hmem := checkCompletion_correct_no_empty g hc
  refine ⟨?_, ?_, ?_⟩
  · intro b c k
    cases ho : g.display.filled.get? b with
    | none => simp only [dropFill, ho]
    | some o =>
      cases o with
      | none => exact absurd (List.get?_mem ho) hmem
      | some c0 => simp only [dropFill, ho]
  · intro b k
    cases hk : g.display.shuffled.get? k with
    | none => simp only [touchFill, hk]
    | some rc =>
      cases ho : g.display.filled.get? b with
      | none => simp only [touchFill, hk, ho]
      | some o =>
        cases o with
        | none => exact absurd (List.get?_mem ho) hmem
        | some c0 => simp only [touchFill, hk, ho]
  · intro a h
    cases ha : a.dragChar <;> simp [undoLastDrag, h]

theorem correct_blocks_fills_but_not_undo_witness :
    checkCompletion demoCorrect = Verdict.correct ∧
    ((∀ b c k, dropFill demoCorrect b c k = (FillResult.blocked, demoCorrect)) ∧
     (∀ b k, touchFill demoCorrect b k = demoCorrect) ∧
     (∀ a, demoCorrect.lastDragAction = some a →
       (undoLastDrag demoCorrect).1 = true ∧
       (undoLastDrag demoCorrect).2.display.filled =
         demoCorrect.display.filled.set a.cardPos none)) :=
  ⟨by decide, correct_blocks_fills_but_not_undo demoCorrect (by decide)⟩

/-- Firing the restore timer on a state with a saved snapshot. -/
theorem fireRestore_of_stateR (g : GameState) (d : Display) (h : g.stateR = some d) :
    fireRestore g =
      { g with
        pendingRestore := false, display := d,
        lastDragAction := none, message := Msg.noMsg } := by
  simp only [fireRestore, restoreStateR, h]

/-- C3 (counterexample): the Incorrect verdict schedules a restore;
starting a new Round does not cancel it (`pendingRestore` is still set),
and when it fires after a fill was made into the new Round, it mutates the
new Round's state (the fill is wiped). -/
theorem pending_restore_not_canceled_cex :
    demoWrong.pendingRestore = true ∧
    demoNewRound.pendingRestore = true ∧
    (fireRestore demoNewFill).display ≠ demoNewFill.display :=
  ⟨by decide, by decide, by decide⟩

/-- C3 (amended): `startGame` never cancels the scheduled restore (the
timer id is discarded and `clearTimeout` is never called); however
`startGame` also overwrites the snapshot, so when the pending restore fires
it restores the newly generated Round to its own post-generation snapshot —
erasing every fill and undo made during the delay and clearing
`lastDragAction` — rather than writing the old Round's content. -/
theorem restore_fires_into_new_round (g : GameState) (r1 r2 : Nat)
    (rand rand2 : Nat → Nat) (ops : List Op) :
    (startGame g r1 r2 rand rand2).pendingRestore = g.pendingRestore ∧
    (fireRestore (applyOps (startGame g r1 r2 rand rand2) ops)).display =
      (startGame g r1 r2 rand rand2).display ∧
    (fireRestore (applyOps (startGame g r1 r2 rand rand2) ops)).lastDragAction = none := by
  have hR : (applyOps (startGame g r1 r2 rand rand2) ops).stateR =
      some (startGame g r1 r2 rand rand2).display := by
    rw [(applyOps_static _ _).2.2.2]
    rfl
  rw [fireRestore_of_stateR _ _ hR]
  exact ⟨rfl, rfl, rfl⟩

/-- C5: restoring a Round to its snapshot — after any sequence of fills and
undos whatsoever — resets every blank position to empty, makes every
candidate available again and clears `lastDragAction`, while the same line
pair, the same blank layout and the same candidate order persist: it is a
retry within the same Round, not a new Round. -/
theorem restore_resets_round (g : GameState) (r1 r2 : Nat)
    (rand rand2 : Nat → Nat) (ops : List Op) :
    (fireRestore (applyOps (startGame g r1 r2 rand rand2) ops)).display.filled =
      List.replicate
        (applyOps (startGame g r1 r2 rand rand2) ops).display.blanks.length none ∧
    (fireRestore (applyOps (startGame g r1 r2 rand rand2) ops)).display.hidden =
      List.replicate
        (applyOps (startGame g r1 r2 rand rand2) ops).display.shuffled.length false ∧
    (fireRestore (applyOps (startGame g r1 r2 rand rand2) ops)).lastDragAction = none ∧
    (fireRestore (applyOps (startGame g r1 r2 rand rand2) ops)).display.lines =
      (applyOps (startGame g r1 r2 rand rand2) ops).display.lines ∧
    (fireRestore (applyOps (startGame g r1 r2 rand rand2) ops)).display.blanks =
      (applyOps (startGame g r1 r2 rand rand2) ops).display.blanks ∧
    (fireRestore (applyOps (startGame g r1 r2 rand rand2) ops)).display.shuffled =
      (applyOps (startGame g r1 r2 rand rand2) ops).display.shuffled := by
  have hR : (applyOps (startGame g r1 r2 rand rand2) ops).stateR =
      some (startGame g r1 r2 rand rand2).display := by
    rw [(applyOps_static _ _).2.2.2]
    rfl
  obtain ⟨hl, hb, hs, _⟩ := applyOps_static (startGame g r1 r2 rand rand2) ops
  rw [fireRestore_of_stateR _ _ hR]
  refine ⟨?_, ?_, rfl, ?_, ?_, ?_⟩
  · rw [hb]
    rfl
  · rw [hs]
    rfl
  · rw [hl]
  · rw [hb]
  · rw [hs]

/-- Every section the loader keeps has at least two lines (the `length >= 2`
filter in the `try` branch; the hard-coded fallback of the `catch` branch
has four). -/
theorem loadPoems_section_two_lines (fr : Except Unit String) (L : Nat) :
    ∀ s ∈ loadPoems fr L, 2 ≤ s.length := by
  intro s hs
  cases fr with
  | error e =>
    simp only [loadPoems, defaultSections, List.mem_singleton] at hs
    subst hs
    decide
  | ok text =>
    simp only [loadPoems, parsePoems, List.mem_filter] at hs
    exact of_decide_eq_true hs.2

/-- C9: whatever the corpus load yields — a fetch failure, a text whose
sections are all filtered out, or a usable corpus — starting a round always
produces exactly two consecutive lines of some section, that section being
either a loaded one or the built-in default; the player always has a
playable round. -/
theorem corpus_fallback_playable (fr : Except Unit String) (L r1 r2 : Nat) :
    ∃ s : List String,
      (s ∈ loadPoems fr L ∨ s ∈ defaultSections) ∧
      ∃ i : Nat, i + 1 < s.length ∧
        selectRandomLines (loadPoems fr L) r1 r2 = [s.getD i "", s.getD (i + 1) ""] := by
  by_cases h0 : (loadPoems fr L).length = 0
  · refine ⟨["太阳哈哈笑", "背上小书包", "路上遇花猫", "蝴蝶飞呀飞"],
      Or.inr (by decide), 0, by decide, ?_⟩
    simp only [selectRandomLines, if_pos h0]
    rfl
  · have hpos : 0 < (loadPoems fr L).length := Nat.pos_of_ne_zero h0
    have hlt : r1 % (loadPoems fr L).length < (loadPoems fr L).length :=
      Nat.mod_lt _ hpos
    have hmem : (loadPoems fr L).getD (r1 % (loadPoems fr L).length) [] ∈
        loadPoems fr L := by
      rw [List.getD_eq_getElem _ _ hlt]
      exact List.getElem_mem hlt
    have hs2 : 2 ≤ ((loadPoems fr L).getD (r1 % (loadPoems fr L).length) []).length :=
      loadPoems_section_two_lines fr L _ hmem
    refine ⟨(loadPoems fr L).getD (r1 % (loadPoems fr L).length) [], Or.inl hmem,
      r2 % (((loadPoems fr L).getD (r1 % (loadPoems fr L).length) []).length - 2 + 1),
      ?_, ?_⟩
    · have := Nat.mod_lt r2
        (show 0 < ((loadPoems fr L).getD (r1 % (loadPoems fr L).length) []).length - 2 + 1
          from Nat.succ_pos _)
      omega
    · simp only [selectRandomLines, if_neg h0]

end PoetGame

